import Mathlib

/-!
Verification of the superdesign Gallery/Studio core against its
natural-language specification.

The development shallowly embeds:
* the presentation-side view-state store (`src/webview/store/canvasStore.ts`
  together with the `StudioView` component) as pure functions on a
  `CanvasState` record;
* the host-side design manager (`designManager.ts`) and canvas message
  handler (`canvasMessageHandler.ts`) as pure state-passing functions on a
  `HostState` record, with filesystem directories modelled as association
  lists from file name to file record and fallible operations returning
  `Except`;
* JSON parsing results and the JavaScript `typeof`/truthiness semantics
  needed by `isValidMetadataStore` (from `designMetadata.ts`).

Machine timestamps are modelled as integers (milliseconds, as in
JavaScript `Date`).
-/

/-! ## Association lists

JavaScript objects used as string-keyed tables (`store.designs`) and
directory listings are modelled as association lists.  `aset` mirrors
property assignment (replace in place, else append), `aeraseAll` mirrors
`delete obj[k]` / file removal, `alookup` mirrors property read. -/

def alookup {α : Type} : List (String × α) → String → Option α
  | [], _ => none
  | p :: ps, k => if p.1 = k then some p.2 else alookup ps k

def aset {α : Type} : List (String × α) → String → α → List (String × α)
  | [], k, v => [(k, v)]
  | p :: ps, k, v => if p.1 = k then (k, v) :: ps else p :: aset ps k v

def aeraseAll {α : Type} (l : List (String × α)) (k : String) : List (String × α) :=
  l.filter (fun p => ¬ (p.1 = k))

theorem alookup_aset_self {α : Type} (l : List (String × α)) (k : String) (v : α) :
    alookup (aset l k v) k = some v := by
  induction l with
  | nil => simp [aset, alookup]
  | cons p ps ih =>
      by_cases h : p.1 = k <;> simp [aset, alookup, h, ih]

theorem alookup_aset_ne {α : Type} (l : List (String × α)) (k g : String) (v : α)
    (h : g ≠ k) : alookup (aset l k v) g = alookup l g := by
  have h' : ¬ (k = g) := fun hh => h hh.symm
  induction l with
  | nil => simp [aset, alookup, h']
  | cons p ps ih =>
      by_cases hp : p.1 = k
      · simp [aset, alookup, hp, h']
      · by_cases hg : p.1 = g <;> simp [aset, alookup, hp, hg, ih, h', h]

theorem alookup_aeraseAll_self {α : Type} (l : List (String × α)) (k : String) :
    alookup (aeraseAll l k) k = none := by
  induction l with
  | nil => simp [aeraseAll, alookup]
  | cons p ps ih =>
      by_cases h : p.1 = k <;> simp_all [aeraseAll, alookup, List.filter]

theorem alookup_aeraseAll_ne {α : Type} (l : List (String × α)) (k g : String)
    (h : g ≠ k) : alookup (aeraseAll l k) g = alookup l g := by
  induction l with
  | nil => simp [aeraseAll, alookup]
  | cons p ps ih =>
      by_cases hp : p.1 = k
      · have : p.1 ≠ g := by rw [hp]; exact fun hh => h hh.symm
        simp_all [aeraseAll, alookup, List.filter, hp, this]
      · by_cases hg : p.1 = g <;> simp_all [aeraseAll, alookup, List.filter, hp, hg]

/-! ## Presentation-side view-state store (`canvasStore.ts`) -/

inductive ViewMode
  | gallery
  | compare
  | studio
  deriving DecidableEq, Repr

/-- Presentation-side store state (the Zustand store of `canvasStore.ts`).
Designs are represented by their catalog names (`DesignFile.name`); the
remaining `DesignFile` attributes play no role in the store transitions. -/
structure CanvasState where
  mode : ViewMode
  designs : List String
  primaryDesignId : Option String
  compareSet : List String
  studioDesignId : Option String
  deriving DecidableEq, Repr

/-- JavaScript `a || b` on nullable strings: `null` and `""` are falsy. -/
def jsOrName : Option String → Option String → Option String
  | some s, b => if s = "" then b else some s
  | none, b => b

/-- `setDesigns` from `canvasStore.ts`: replaces the catalog list and
nothing else (the `isLoading` flag, not modelled, is also cleared). -/
def setDesigns (s : CanvasState) (designs : List String) : CanvasState :=
  { s with designs := designs }

/-- `setMode` from `canvasStore.ts`. -/
def setMode (s : CanvasState) (mode : ViewMode) (designId : Option String) : CanvasState :=
  { s with
    mode := mode
    studioDesignId :=
      if mode = ViewMode.studio then jsOrName designId s.studioDesignId
      else s.studioDesignId }

/-- `addToCompare` from `canvasStore.ts`: no-op when the id is already a
member, otherwise appends and truncates with `slice(0, 3)`. -/
def addToCompare (s : CanvasState) (id : String) : CanvasState :=
  if id ∈ s.compareSet then s
  else
    let newCompareSet := (s.compareSet ++ [id]).take 3
    { s with
      compareSet := newCompareSet
      mode := if 0 < newCompareSet.length then ViewMode.compare else s.mode }

/-- `removeFromCompare` from `canvasStore.ts`. -/
def removeFromCompare (s : CanvasState) (id : String) : CanvasState :=
  let newCompareSet := s.compareSet.filter (fun cid => ¬ (cid = id))
  { s with
    compareSet := newCompareSet
    mode := if newCompareSet.length = 0 then ViewMode.gallery else s.mode }

/-- `clearCompare` from `canvasStore.ts`. -/
def clearCompare (s : CanvasState) : CanvasState :=
  { s with compareSet := [], mode := ViewMode.gallery }

/-- `StudioView`: the active design id is `studioDesignId || primaryDesignId`. -/
def studioActiveId (s : CanvasState) : Option String :=
  jsOrName s.studioDesignId s.primaryDesignId

/-- What the `StudioView` component renders. -/
inductive StudioRender
  | emptyState
  | frame (name : String)
  deriving DecidableEq, Repr

/-- `StudioView` from `StudioView.tsx`: looks the active id up in the
catalog; renders the empty-state placeholder when it is absent, otherwise
a `StudioFrame` for the found design. -/
def studioRender (s : CanvasState) : StudioRender :=
  match s.designs.find? (fun n => studioActiveId s = some n) with
  | some n => StudioRender.frame n
  | none => StudioRender.emptyState

/-! ## Design lifecycle metadata (`designMetadata.ts`) -/

inductive DesignStatus
  | draft
  | review
  | approved
  | archived
  | exported
  deriving DecidableEq, Repr

/-- Persisted per-design metadata record (interface `DesignMetadata`).
Timestamps are in milliseconds. -/
structure DesignMetadata where
  fileName : String
  status : DesignStatus
  createdAt : Int
  updatedAt : Int
  parentDesign : Option String
  tags : List String
  notes : String
  deriving DecidableEq, Repr

/-- `createDefaultMetadata` from `designMetadata.ts` (both date fields are
set to the current time). -/
def createDefaultMetadata (fileName : String) (now : Int) : DesignMetadata :=
  { fileName := fileName
    status := DesignStatus.draft
    createdAt := now
    updatedAt := now
    parentDesign := none
    tags := []
    notes := "" }

/-- The persisted aggregate (interface `DesignMetadataStore`). -/
structure MetadataStore where
  designs : List (String × DesignMetadata)
  lastUpdated : Int
  version : String
  deriving DecidableEq, Repr

/-- `DesignManager.createEmptyStore`. -/
def createEmptyStore (now : Int) : MetadataStore :=
  { designs := [], lastUpdated := now, version := "1.0.0" }

/-! ## JSON values and the JavaScript dynamic checks used on them -/

/-- Result of `JSON.parse` on the metadata file's text.  Numbers are
modelled as integers (fractional values play no role in the checks). -/
inductive JsonValue
  | null
  | bool (b : Bool)
  | num (n : Int)
  | str (s : String)
  | arr (elems : List JsonValue)
  | obj (fields : List (String × JsonValue))

/-- JavaScript truthiness of a parsed JSON value. -/
def jsTruthy : JsonValue → Bool
  | JsonValue.null => false
  | JsonValue.bool b => b
  | JsonValue.num n => decide (n ≠ 0)
  | JsonValue.str s => decide (s ≠ "")
  | JsonValue.arr _ => true
  | JsonValue.obj _ => true

/-- JavaScript `typeof` on a parsed JSON value (`typeof null` is
`"object"`, as is `typeof` of any array or object). -/
def jsTypeof : JsonValue → String
  | JsonValue.null => "object"
  | JsonValue.bool _ => "boolean"
  | JsonValue.num _ => "number"
  | JsonValue.str _ => "string"
  | JsonValue.arr _ => "object"
  | JsonValue.obj _ => "object"

/-- JavaScript property read `v[k]`; `none` models `undefined`. -/
def jsGetField : JsonValue → String → Option JsonValue
  | JsonValue.obj fields, k => alookup fields k
  | _, _ => none

/-- `typeof v[k]`, where a missing property reads as `undefined`. -/
def jsTypeofField (v : JsonValue) (k : String) : String :=
  match jsGetField v k with
  | some w => jsTypeof w
  | none => "undefined"

/-- `isValidMetadataStore` from `designMetadata.ts`:
`data && typeof data === 'object' && typeof data.designs === 'object' &&
typeof data.version === 'string'`, read as a boolean. -/
def isValidMetadataStore (data : JsonValue) : Bool :=
  jsTruthy data
    && (jsTypeof data == "object")
    && (jsTypeofField data "designs" == "object")
    && (jsTypeofField data "version" == "string")

/-- Reads a `DesignStatus` out of a parsed JSON field; any other value is
carried through the untyped cast in the source, modelled here by the
`draft` default. -/
def statusOfJson : Option JsonValue → DesignStatus
  | some (JsonValue.str "draft") => DesignStatus.draft
  | some (JsonValue.str "review") => DesignStatus.review
  | some (JsonValue.str "approved") => DesignStatus.approved
  | some (JsonValue.str "archived") => DesignStatus.archived
  | some (JsonValue.str "exported") => DesignStatus.exported
  | _ => DesignStatus.draft

def stringOfJson : Option JsonValue → String
  | some (JsonValue.str s) => s
  | _ => ""

def intOfJson : Option JsonValue → Int
  | some (JsonValue.num n) => n
  | _ => 0

/-- Extraction of one design record from its parsed JSON value (the source
casts the parsed object and converts the two date fields in place). -/
def metadataOfJson (_key : String) (v : JsonValue) : DesignMetadata :=
  { fileName := stringOfJson (jsGetField v "fileName")
    status := statusOfJson (jsGetField v "status")
    createdAt := intOfJson (jsGetField v "createdAt")
    updatedAt := intOfJson (jsGetField v "updatedAt")
    parentDesign :=
      match jsGetField v "parentDesign" with
      | some (JsonValue.str s) => some s
      | _ => none
    tags :=
      match jsGetField v "tags" with
      | some (JsonValue.arr es) => es.map (fun e => stringOfJson (some e))
      | _ => []
    notes := stringOfJson (jsGetField v "notes") }

/-- Extraction of the whole store from a parsed JSON value that passed
`isValidMetadataStore`. -/
def storeOfJson (v : JsonValue) : MetadataStore :=
  { designs :=
      match jsGetField v "designs" with
      | some (JsonValue.obj fields) => fields.map (fun p => (p.1, metadataOfJson p.1 p.2))
      | _ => []
    lastUpdated := intOfJson (jsGetField v "lastUpdated")
    version := stringOfJson (jsGetField v "version") }

/-- What reading and parsing the persisted metadata file yields:
the read threw (file absent or unreadable), `JSON.parse` threw, or a
parsed JSON value. -/
inductive LoadInput
  | readError
  | parseError
  | parsed (v : JsonValue)

/-- `DesignManager.loadMetadata`, cache empty (first load): both throwing
paths land in the `catch` and yield a fresh empty store, an invalid parsed
value yields a fresh empty store, and a valid one is converted and
returned. -/
def loadMetadata (input : LoadInput) (now : Int) : MetadataStore :=
  match input with
  | LoadInput.readError => createEmptyStore now
  | LoadInput.parseError => createEmptyStore now
  | LoadInput.parsed v =>
      if isValidMetadataStore v then storeOfJson v else createEmptyStore now

/-- The malformed-input cases of claim C5: file absent or unreadable,
unparseable JSON, or a parsed value rejected by the store validity check. -/
def loadInputMalformed : LoadInput → Prop
  | LoadInput.readError => True
  | LoadInput.parseError => True
  | LoadInput.parsed v => isValidMetadataStore v = false

/-! ## DesignManager with its in-memory cache (`designManager.ts`)

`DesignManager` keeps a nullable in-memory cache of the store.
`loadMetadata` returns the cache when present, otherwise reads the file;
a successfully parsed and valid store is installed as the cache *and
returned as the same object*, so later in-place mutations of the returned
store are mutations of the cache.  The boolean returned by
`loadForUpdate` records exactly this aliasing. -/

structure DMState where
  disk : LoadInput
  cache : Option MetadataStore

/-- `DesignManager.loadMetadata` including the cache: yields the store the
caller works on and whether that store is (now) the cached object. -/
def loadForUpdate (s : DMState) (now : Int) : MetadataStore × Bool :=
  match s.cache with
  | some c => (c, true)
  | none =>
      match s.disk with
      | LoadInput.parsed v =>
          if isValidMetadataStore v then (storeOfJson v, true)
          else (createEmptyStore now, false)
      | _ => (createEmptyStore now, false)

/-- Serialization of a record for `JSON.stringify` in `saveMetadata`. -/
def jsonOfMetadata (m : DesignMetadata) : JsonValue :=
  JsonValue.obj
    [("fileName", JsonValue.str m.fileName),
     ("status", JsonValue.str
        (match m.status with
         | DesignStatus.draft => "draft"
         | DesignStatus.review => "review"
         | DesignStatus.approved => "approved"
         | DesignStatus.archived => "archived"
         | DesignStatus.exported => "exported")),
     ("createdAt", JsonValue.num m.createdAt),
     ("updatedAt", JsonValue.num m.updatedAt),
     ("notes", JsonValue.str m.notes),
     ("tags", JsonValue.arr (m.tags.map JsonValue.str))]

/-- Serialization of the whole store for `JSON.stringify` in `saveMetadata`. -/
def jsonOfStore (store : MetadataStore) : JsonValue :=
  JsonValue.obj
    [("designs", JsonValue.obj (store.designs.map (fun p => (p.1, jsonOfMetadata p.2)))),
     ("lastUpdated", JsonValue.num store.lastUpdated),
     ("version", JsonValue.str store.version)]

/-- `DesignManager.updateStatus` followed by `saveMetadata`, with the
write outcome made explicit.  The record is created with defaults when
absent, its status and `updatedAt` are set, `saveMetadata` stamps
`lastUpdated` and attempts the write: on success the store is written to
disk and becomes the cache; on failure the error is rethrown — but the
mutations already happened through the shared reference, so whenever the
worked-on store was the cached object the mutated store remains cached. -/
def updateStatus (s : DMState) (fileName : String) (status : DesignStatus)
    (now : Int) (writeOk : Bool) : DMState × Except String Unit :=
  let load := loadForUpdate s now
  let store := load.1
  let aliased := load.2
  let base :=
    match alookup store.designs fileName with
    | some m => m
    | none => createDefaultMetadata fileName now
  let store1 :=
    { store with
      designs := aset store.designs fileName { base with status := status, updatedAt := now } }
  let store2 := { store1 with lastUpdated := now }
  if writeOk then
    ({ disk := LoadInput.parsed (jsonOfStore store2), cache := some store2 }, Except.ok ())
  else
    ({ disk := s.disk, cache := if aliased then some store2 else s.cache },
      Except.error "Failed to save metadata")

/-- `DesignManager.getDesignMetadata`: loads (possibly filling the cache)
and reads one record. -/
def getDesignMetadata (s : DMState) (fileName : String) (now : Int) :
    Option DesignMetadata × DMState :=
  let load := loadForUpdate s now
  ( alookup load.1.designs fileName,
    { s with cache := if load.2 then some load.1 else s.cache } )

/-! ## Host-side state and operations
(`designManager.ts` file operations and `canvasMessageHandler.ts`)

For the message-handler claims the metadata table is taken as already
loaded and writes as succeeding; the cache/write-failure behaviour is the
separate `DMState` model above. -/

/-- An on-disk design file: body and modification time. -/
structure FileRecord where
  content : String
  mtime : Int
  deriving DecidableEq, Repr

/-- Host-process state: the `design_iterations` directory, the
`design_archive` directory, the metadata table, and the handler's
primary-design pointer. -/
structure HostState where
  iterations : List (String × FileRecord)
  archive : List (String × FileRecord)
  metadata : MetadataStore
  primaryDesignId : Option String
  deriving DecidableEq, Repr

/-- The in-place mutation performed by `DesignManager.updateStatus`
(record defaulted when absent; status and `updatedAt` set), used by the
host-flow model where writes succeed; `saveMetadata` stamps
`lastUpdated`. -/
def updateStatusPure (store : MetadataStore) (fileName : String)
    (status : DesignStatus) (now : Int) : MetadataStore :=
  let base :=
    match alookup store.designs fileName with
    | some m => m
    | none => createDefaultMetadata fileName now
  { store with
    designs := aset store.designs fileName { base with status := status, updatedAt := now }
    lastUpdated := now }

/-- The copy half of `DesignManager.archiveDesign`:
`fs.copy(sourcePath, archivePath, overwrite)`.  Fails when the source
file does not exist; the source is left in place. -/
def copyToArchive (s : HostState) (fileName : String) : Except String HostState :=
  match alookup s.iterations fileName with
  | none => Except.error "Failed to archive design: source not found"
  | some fr => Except.ok { s with archive := aset s.archive fileName fr }

/-- The delete half of `DesignManager.archiveDesign`:
`fs.delete(sourcePath)` after the copy succeeded. -/
def deleteSourceFile (s : HostState) (fileName : String) : HostState :=
  { s with iterations := aeraseAll s.iterations fileName }

/-- `DesignManager.archiveDesign`: ensure the archive directory (no
observable effect in the directory-map model), copy the file into the
archive, only then delete the source, then set the persisted status to
`archived`. -/
def archiveDesign (s : HostState) (fileName : String) (now : Int) :
    Except String HostState :=
  match copyToArchive s fileName with
  | Except.error e => Except.error e
  | Except.ok s1 =>
      let s2 := deleteSourceFile s1 fileName
      Except.ok { s2 with metadata := updateStatusPure s2.metadata fileName DesignStatus.archived now }

/-! ## Document catalog builder (`CanvasMessageHandler.getDesignFiles`) -/

/-- One entry of the catalog list pushed to the webview (the fields of
`DesignFile` that the verified claims depend on). -/
structure CatalogEntry where
  name : String
  status : DesignStatus
  timestamp : Int
  deriving DecidableEq, Repr

/-- `file.replace('.html', '')` — removes the first occurrence of
`.html`. -/
def removeFirstHtml : List Char → List Char
  | [] => []
  | c :: cs =>
      if (c :: cs).take 5 = ['.', 'h', 't', 'm', 'l'] then (c :: cs).drop 5
      else c :: removeFirstHtml cs

def htmlBaseName (fileName : String) : String :=
  String.mk (removeFirstHtml fileName.toList)

/-- Display status of a design:
`metadata?.status === 'exported' ? 'archived' : (metadata?.status || 'draft')`. -/
def displayStatus : Option DesignMetadata → DesignStatus
  | some m => if m.status = DesignStatus.exported then DesignStatus.archived else m.status
  | none => DesignStatus.draft

/-- Stable insert for the newest-first ordering of
`designs.sort((a, b) => b.timestamp - a.timestamp)`. -/
def insertByMtime (e : CatalogEntry) : List CatalogEntry → List CatalogEntry
  | [] => [e]
  | x :: xs =>
      if e.timestamp < x.timestamp then x :: insertByMtime e xs
      else e :: x :: xs

/-- Stable newest-first sort (JavaScript `Array.prototype.sort` is
stable; any stable sort by the same comparator produces the same list). -/
def sortByMtimeDesc : List CatalogEntry → List CatalogEntry
  | [] => []
  | x :: xs => insertByMtime x (sortByMtimeDesc xs)

/-- The files `getDesignFiles` builds the catalog from: the entries of
the `design_iterations` directory whose name ends in `.html`. -/
def catalogFiles (s : HostState) : List String :=
  (s.iterations.filter (fun p => p.1.endsWith ".html")).map (fun p => p.1)

/-- `CanvasMessageHandler.getDesignFiles`: list the document directory,
keep the `.html` files, join each with its metadata record, and sort
newest-first. -/
def getDesignFiles (s : HostState) : List CatalogEntry :=
  sortByMtimeDesc
    ((s.iterations.filter (fun p => p.1.endsWith ".html")).map
      (fun p =>
        { name := htmlBaseName p.1
          status := displayStatus (alookup s.metadata.designs p.1)
          timestamp := p.2.mtime }))

/-! ## Synchronization channel: host message handler
(`canvasMessageHandler.ts`) -/

/-- The `design:action` kinds. -/
inductive DesignAction
  | setStatusAct (value : DesignStatus)
  | copyPromptAct
  | copyPathAct
  | openExternalAct
  | archiveAct
  | deleteAct
  deriving DecidableEq, Repr

/-- Messages the handler posts back to the webview (the ones the claims
concern). -/
inductive OutMessage
  | designsList (entries : List CatalogEntry)
  deriving DecidableEq, Repr

/-- `CanvasMessageHandler.deleteDesign`: ask for confirmation; when
confirmed, `fs.unlinkSync` the file (which throws if it is absent),
remove the metadata record and save.  The handler's `primaryDesignId`
field is not touched. -/
def deleteDesignHandler (s : HostState) (fileName : String) (confirmed : Bool)
    (now : Int) : Except String HostState :=
  if confirmed then
    match alookup s.iterations fileName with
    | none => Except.error "unlink failed: no such file"
    | some _ =>
        Except.ok
          { s with
            iterations := aeraseAll s.iterations fileName
            metadata :=
              { s.metadata with
                designs := aeraseAll s.metadata.designs fileName
                lastUpdated := now } }
  else Except.ok s

/-- The new-status mutation of the handler's `setStatus` branch: when the
design has a metadata record, set its status (and `updatedAt` through
`setDesignMetadata`, which then saves, stamping `lastUpdated`); when it
has none, change nothing. -/
def applySetStatus (s : HostState) (fileName : String) (value : DesignStatus)
    (now : Int) : HostState :=
  match alookup s.metadata.designs fileName with
  | some m =>
      { s with
        metadata :=
          { s.metadata with
            designs := aset s.metadata.designs fileName
              { m with status := value, updatedAt := now }
            lastUpdated := now } }
  | none => s

/-- `CanvasMessageHandler.handleDesignAction` followed by the
`sendDesignsList` calls it issues.  Returns the new host state and the
messages posted; a thrown error aborts the handler before any push. -/
def handleDesignAction (s : HostState) (designId : String) :
    DesignAction → Bool → Int → Except String (HostState × List OutMessage)
  | DesignAction.setStatusAct value, _, now =>
      let s1 := applySetStatus s (designId ++ ".html") value now
      Except.ok (s1, [OutMessage.designsList (getDesignFiles s1)])
  | DesignAction.copyPromptAct, _, _ => Except.ok (s, [])
  | DesignAction.copyPathAct, _, _ => Except.ok (s, [])
  | DesignAction.openExternalAct, _, _ => Except.ok (s, [])
  | DesignAction.archiveAct, _, now =>
      match archiveDesign s (designId ++ ".html") now with
      | Except.error e => Except.error e
      | Except.ok s1 => Except.ok (s1, [OutMessage.designsList (getDesignFiles s1)])
  | DesignAction.deleteAct, confirmed, now =>
      match deleteDesignHandler s (designId ++ ".html") confirmed now with
      | Except.error e => Except.error e
      | Except.ok s1 => Except.ok (s1, [OutMessage.designsList (getDesignFiles s1)])

/-! ## Bulk archiving (`DesignManager.archiveOldDesigns`) -/

/-- The archiving condition of `archiveOldDesigns`: status neither
`approved` nor `archived`, and created strictly before the cutoff. -/
def eligibleForBulkArchive (m : DesignMetadata) (cutoff : Int) : Bool :=
  decide (m.status ≠ DesignStatus.approved)
    && decide (m.status ≠ DesignStatus.archived)
    && decide (m.createdAt < cutoff)

/-- The `for` loop of `archiveOldDesigns` over the snapshot of
`Object.entries(store.designs)`: archive each eligible design, counting
successes and skipping (with a logged error) the ones whose archive
operation throws. -/
def bulkArchiveGo (cutoff now : Int) :
    List (String × DesignMetadata) → HostState → Nat → HostState × Nat
  | [], st, n => (st, n)
  | (fileName, m) :: rest, st, n =>
      if eligibleForBulkArchive m cutoff then
        match archiveDesign st fileName now with
        | Except.ok st1 => bulkArchiveGo cutoff now rest st1 (n + 1)
        | Except.error _ => bulkArchiveGo cutoff now rest st n
      else bulkArchiveGo cutoff now rest st n

/-- Milliseconds in a day, for the cutoff computed by
`cutoffDate.setDate(cutoffDate.getDate() - daysOld)`. -/
def msPerDay : Int := 86400000

/-- `DesignManager.archiveOldDesigns`. -/
def archiveOldDesigns (s : HostState) (daysOld now : Int) : HostState × Nat :=
  bulkArchiveGo (now - daysOld * msPerDay) now s.metadata.designs s 0

/-- The projection of a host state onto everything keyed by one file
name: its file in the document directory, its file in the archive, and
its metadata record. -/
def keyView (s : HostState) (fileName : String) :
    Option FileRecord × Option FileRecord × Option DesignMetadata :=
  (alookup s.iterations fileName, alookup s.archive fileName,
   alookup s.metadata.designs fileName)

/-! ## Example states used by concrete counterexamples and witnesses -/

/-- A presentation state in Studio mode focused on design `a`, with `a`
present in the catalog. -/
def canvasStudioEx : CanvasState :=
  { mode := ViewMode.studio
    designs := ["a"]
    primaryDesignId := none
    compareSet := []
    studioDesignId := some "a" }

/-- A presentation state in Compare mode with a full compare-set. -/
def canvasCompareEx : CanvasState :=
  { mode := ViewMode.compare
    designs := ["a", "b", "c", "d"]
    primaryDesignId := none
    compareSet := ["a", "b", "c"]
    studioDesignId := none }

/-! ## C1 — Studio mode on catalog updates that remove the focused design -/

/-- C1, counterexample.  The state machine is in Studio mode focused on
design `a`; a catalog update removes every design.  The claim says the
machine fails over to Gallery mode; in fact `setDesigns` only replaces
the design list, so afterwards the studio focus still names `a`, the
catalog no longer contains it, and the mode is still Studio, not
Gallery. -/
theorem c1_studio_failover_counterexample :
    studioActiveId (setDesigns canvasStudioEx []) = some "a" ∧
    (setDesigns canvasStudioEx []).designs = [] ∧
    (setDesigns canvasStudioEx []).mode = ViewMode.studio ∧
    (setDesigns canvasStudioEx []).mode ≠ ViewMode.gallery := by
  decide

/-- C1, amended.  When the document referenced by studio-focus (or, when
it is unset, by the primary pointer) is not in the catalog, the Studio
view renders the empty-state placeholder — never the dangling reference —
but the machine stays in whatever mode it was in: catalog updates do not
change the mode, and Gallery is reached only through the explicit back
action. -/
theorem c1_studio_renders_empty_state (s : CanvasState)
    (h : ∀ n ∈ s.designs, studioActiveId s ≠ some n) :
    studioRender s = StudioRender.emptyState ∧
    (∀ designs, (setDesigns s designs).mode = s.mode) ∧
    (setMode s ViewMode.gallery none).mode = ViewMode.gallery := by
  refine ⟨?_, fun _ => rfl, rfl⟩
  unfold studioRender
  cases hf : s.designs.find? (fun n => studioActiveId s = some n) with
  | none => rfl
  | some n =>
      exfalso
      have hmem := List.mem_of_find?_eq_some hf
      have hp := List.find?_some hf
      exact h n hmem (of_decide_eq_true hp)

/-- C1, witness for the amended theorem at the concrete emptied state. -/
theorem c1_studio_renders_empty_state_witness :
    studioRender (setDesigns canvasStudioEx []) = StudioRender.emptyState :=
  (c1_studio_renders_empty_state (setDesigns canvasStudioEx []) (by decide)).1

/-! ## C3 — compare-set capacity and eviction policy -/

/-- C3, counterexample.  With compare-set `[a, b, c]` full, adding the
distinct member `d` leaves the set at `[a, b, c]`: `slice(0, 3)` keeps
the three oldest members and silently drops the new one — it does not
evict the oldest to yield `[b, c, d]`. -/
theorem c3_addToCompare_counterexample :
    (addToCompare canvasCompareEx "d").compareSet = ["a", "b", "c"] ∧
    (addToCompare canvasCompareEx "d").compareSet ≠ ["b", "c", "d"] := by
  decide

/-- C3, amended.  The compare-set never exceeds 3 members over any
sequence of `addToCompare` calls, and a call adding a 4th distinct member
to a full compare-set leaves the compare-set unchanged: the newly added
member is the one dropped, not the oldest. -/
theorem c3_compare_set_capacity :
    (∀ (s : CanvasState) (ids : List String), s.compareSet.length ≤ 3 →
        (ids.foldl addToCompare s).compareSet.length ≤ 3) ∧
    (∀ (s : CanvasState) (id : String), s.compareSet.length = 3 →
        (addToCompare s id).compareSet = s.compareSet) := by
  have hstep : ∀ (s : CanvasState) (id : String), s.compareSet.length ≤ 3 →
      (addToCompare s id).compareSet.length ≤ 3 := by
    intro s id h
    unfold addToCompare
    by_cases hc : id ∈ s.compareSet
    · simpa [hc] using h
    · simp only [hc, if_false, ite_false]
      simp [List.length_take]
  refine ⟨?_, ?_⟩
  · intro s ids
    induction ids generalizing s with
    | nil => intro h; simpa using h
    | cons id rest ih => intro h; exact ih (addToCompare s id) (hstep s id h)
  · intro s id h
    unfold addToCompare
    by_cases hc : id ∈ s.compareSet
    · simp [hc]
    · have htake : (s.compareSet ++ [id]).take 3 = s.compareSet := by
        rw [← h]
        exact List.take_left s.compareSet [id]
      simp [hc, htake]

/-- C3, witness: from the empty compare-set, any nine calls keep the size
within 3, and adding to the full set `[a, b, c]` changes nothing. -/
theorem c3_compare_set_capacity_witness :
    (((List.replicate 9 "x").foldl addToCompare canvasStudioEx).compareSet.length ≤ 3) ∧
    (addToCompare canvasCompareEx "d").compareSet = canvasCompareEx.compareSet :=
  ⟨c3_compare_set_capacity.1 canvasStudioEx (List.replicate 9 "x") (by decide),
   c3_compare_set_capacity.2 canvasCompareEx "d" (by decide)⟩

/-! ## C4 — Compare mode never shows an empty compare-set -/

theorem removeFromCompare_compareSet (s : CanvasState) (id : String) :
    (removeFromCompare s id).compareSet = s.compareSet.filter (fun cid => ¬ (cid = id)) :=
  rfl

theorem removeFromCompare_mode (s : CanvasState) (id : String) :
    (removeFromCompare s id).mode =
      if (removeFromCompare s id).compareSet.length = 0 then ViewMode.gallery
      else s.mode :=
  rfl

/-- C4, confirmed.  `removeFromCompare` falls back to Gallery exactly when
it empties the compare-set; `clearCompare` empties the set and falls back
to Gallery; and a removal from Compare mode that leaves at least one
member keeps the mode Compare. -/
theorem c4_compare_empty_fallback (s : CanvasState) (id : String) :
    ((removeFromCompare s id).compareSet = [] →
        (removeFromCompare s id).mode = ViewMode.gallery) ∧
    ((clearCompare s).compareSet = [] ∧ (clearCompare s).mode = ViewMode.gallery) ∧
    (s.mode = ViewMode.compare → (removeFromCompare s id).compareSet ≠ [] →
        (removeFromCompare s id).mode = ViewMode.compare) := by
  refine ⟨?_, ⟨rfl, rfl⟩, ?_⟩
  · intro h
    rw [removeFromCompare_mode, h]
    simp
  · intro hmode h
    rw [removeFromCompare_mode]
    have hne : ¬ ((removeFromCompare s id).compareSet.length = 0) := by
      simpa [List.length_eq_zero] using h
    simp [hne, hmode]

/-- C4, witness: removing `a` from the full set `[a, b, c]` in Compare
mode keeps the mode Compare; removing from a singleton set falls back to
Gallery. -/
theorem c4_compare_empty_fallback_witness :
    (removeFromCompare canvasCompareEx "a").mode = ViewMode.compare ∧
    (removeFromCompare
        { canvasCompareEx with compareSet := ["b"] } "b").mode = ViewMode.gallery :=
  ⟨(c4_compare_empty_fallback canvasCompareEx "a").2.2 rfl (by decide),
   (c4_compare_empty_fallback { canvasCompareEx with compareSet := ["b"] } "b").1 (by decide)⟩

/-! ## C5 — loading the persisted metadata table never fails -/

/-- C5, confirmed.  `loadMetadata` is a total function of the read
result — a missing or unreadable file and an unparseable body land in the
`catch`, and a parsed value rejected by the store validity check lands in
the `else` — and on every such malformed input it returns the fresh empty
store, in which no design record exists. -/
theorem c5_load_malformed_empty (input : LoadInput) (now : Int)
    (h : loadInputMalformed input) :
    loadMetadata input now = createEmptyStore now ∧
    (loadMetadata input now).designs = [] ∧
    (∀ fileName, alookup (loadMetadata input now).designs fileName = none) := by
  have hload : loadMetadata input now = createEmptyStore now := by
    cases input with
    | readError => rfl
    | parseError => rfl
    | parsed v =>
        have hv : isValidMetadataStore v = false := h
        simp [loadMetadata, hv]
  refine ⟨hload, ?_, ?_⟩
  · rw [hload]; rfl
  · intro fileName; rw [hload]; rfl

/-- C5, witness at three concrete malformed inputs: an unreadable file,
an unparseable body, and the parsed value `"hello"` (a string is truthy
but its `typeof` is not `"object"`). -/
theorem c5_load_malformed_empty_witness :
    loadMetadata LoadInput.readError 3 = createEmptyStore 3 ∧
    loadMetadata LoadInput.parseError 3 = createEmptyStore 3 ∧
    loadMetadata (LoadInput.parsed (JsonValue.str "hello")) 3 = createEmptyStore 3 :=
  ⟨(c5_load_malformed_empty LoadInput.readError 3 trivial).1,
   (c5_load_malformed_empty LoadInput.parseError 3 trivial).1,
   (c5_load_malformed_empty (LoadInput.parsed (JsonValue.str "hello")) 3 rfl).1⟩

/-! ## Host example states -/

/-- A host state with one design file `a.html`, a default metadata record
for it, and `a` as the primary design. -/
def hostEx : HostState :=
  { iterations := [("a.html", { content := "<html>x</html>", mtime := 5 })]
    archive := []
    metadata :=
      { designs := [("a.html", createDefaultMetadata "a.html" 0)]
        lastUpdated := 0
        version := "1.0.0" }
    primaryDesignId := some "a" }

/-! ## C2 — the primary pointer after deleting its document -/

/-- C2, counterexample.  In `hostEx` the primary pointer names design `a`
and the catalog contains its document `a.html`.  Running the confirmed
delete action removes the file and the metadata record and rebuilds an
empty catalog — yet the primary pointer still holds `a` instead of being
cleared to null: it dangles. -/
theorem c2_primary_cleared_counterexample :
    (deleteDesignHandler hostEx "a.html" true 7).toOption.map
        (fun t =>
          (t.primaryDesignId, alookup t.iterations "a.html",
           alookup t.metadata.designs "a.html", catalogFiles t)) =
      some (some "a", none, none, []) := by
  decide

/-- C2, amended.  The delete action removes the document's file and its
metadata record, but no code path clears the primary pointer: the host
handler's delete leaves `primaryDesignId` untouched, and on the
presentation side a catalog rebuild (`setDesigns`) also leaves it
untouched, so a pointer naming the deleted document dangles. -/
theorem c2_delete_leaves_primary_dangling :
    (∀ (s : HostState) (fileName : String) (confirmed : Bool) (now : Int)
        (s1 : HostState),
        deleteDesignHandler s fileName confirmed now = Except.ok s1 →
        s1.primaryDesignId = s.primaryDesignId) ∧
    (∀ (c : CanvasState) (designs : List String),
        (setDesigns c designs).primaryDesignId = c.primaryDesignId) := by
  constructor
  · intro s fileName confirmed now s1 h
    unfold deleteDesignHandler at h
    cases confirmed with
    | true =>
        simp only [if_true] at h
        cases hl : alookup s.iterations fileName with
        | none => rw [hl] at h; exact Except.noConfusion h
        | some fr =>
            rw [hl] at h
            simp only [Except.ok.injEq] at h
            rw [← h]
    | false =>
        simp only [Bool.false_eq_true, if_false] at h
        simp only [Except.ok.injEq] at h
        rw [← h]
  · intro c designs
    rfl

/-- C2, witness for the amended theorem: the concrete confirmed delete of
`a.html` keeps the primary pointer at `a`. -/
theorem c2_delete_leaves_primary_dangling_witness :
    ({ iterations := []
       archive := []
       metadata := { designs := [], lastUpdated := 7, version := "1.0.0" }
       primaryDesignId := some "a" } : HostState).primaryDesignId =
      hostEx.primaryDesignId :=
  c2_delete_leaves_primary_dangling.1 hostEx "a.html" true 7 _ rfl

/-! ## C10 — setStatus for a design without a metadata record -/

/-- C10, confirmed.  When a `setStatus` action arrives for a design with
no metadata record, `getDesignMetadata` yields null, the `if (metadata)`
guard skips the mutation — no default record is created and nothing in
the metadata table changes (the host state is returned unchanged) — and
the handler still pushes the full rebuilt catalog list. -/
theorem c10_setstatus_without_record (s : HostState) (designId : String)
    (value : DesignStatus) (confirmed : Bool) (now : Int)
    (h : alookup s.metadata.designs (designId ++ ".html") = none) :
    handleDesignAction s designId (DesignAction.setStatusAct value) confirmed now =
      Except.ok (s, [OutMessage.designsList (getDesignFiles s)]) := by
  have hs : applySetStatus s (designId ++ ".html") value now = s := by
    unfold applySetStatus
    rw [h]
  simp only [handleDesignAction, hs]

/-- C10, witness: a `setStatus` for design `b`, which has no record in
`hostEx`, returns the state unchanged together with the catalog push. -/
theorem c10_setstatus_without_record_witness :
    handleDesignAction hostEx "b" (DesignAction.setStatusAct DesignStatus.review)
        true 7 =
      Except.ok (hostEx, [OutMessage.designsList (getDesignFiles hostEx)]) :=
  c10_setstatus_without_record hostEx "b" DesignStatus.review true 7 rfl

/-! ## C7 — every catalog-mutating action is followed by a full re-push -/

/-- C7, confirmed.  For each of the three catalog-mutating actions —
`setStatus`, `archive`, `delete` — whenever the handler completes, the
messages it posted are exactly one `designs:list` push carrying the
complete catalog rebuilt from the post-action state (never an incremental
patch). -/
theorem c7_mutations_full_repush (s : HostState) (designId : String)
    (value : DesignStatus) (confirmed : Bool) (now : Int) :
    (∀ s1 msgs,
        handleDesignAction s designId (DesignAction.setStatusAct value) confirmed now =
          Except.ok (s1, msgs) →
        msgs = [OutMessage.designsList (getDesignFiles s1)]) ∧
    (∀ s1 msgs,
        handleDesignAction s designId DesignAction.archiveAct confirmed now =
          Except.ok (s1, msgs) →
        msgs = [OutMessage.designsList (getDesignFiles s1)]) ∧
    (∀ s1 msgs,
        handleDesignAction s designId DesignAction.deleteAct confirmed now =
          Except.ok (s1, msgs) →
        msgs = [OutMessage.designsList (getDesignFiles s1)]) := by
  refine ⟨?_, ?_, ?_⟩
  · intro s1 msgs h
    simp only [handleDesignAction, Except.ok.injEq, Prod.mk.injEq] at h
    rw [← h.2, ← h.1]
  · intro s1 msgs h
    simp only [handleDesignAction] at h
    split at h
    · exact Except.noConfusion h
    · simp only [Except.ok.injEq, Prod.mk.injEq] at h
      rw [← h.2, ← h.1]
  · intro s1 msgs h
    simp only [handleDesignAction] at h
    split at h
    · exact Except.noConfusion h
    · simp only [Except.ok.injEq, Prod.mk.injEq] at h
      rw [← h.2, ← h.1]

/-- C7, witness: the concrete confirmed delete of design `a` from
`hostEx` pushes exactly the catalog rebuilt from the post-delete state. -/
theorem c7_mutations_full_repush_witness :
    ([OutMessage.designsList (getDesignFiles
        { iterations := []
          archive := []
          metadata := { designs := [], lastUpdated := 7, version := "1.0.0" }
          primaryDesignId := some "a" })] : List OutMessage) =
      [OutMessage.designsList (getDesignFiles
        { iterations := []
          archive := []
          metadata := { designs := [], lastUpdated := 7, version := "1.0.0" }
          primaryDesignId := some "a" })] :=
  (c7_mutations_full_repush hostEx "a" DesignStatus.draft true 7).2.2 _ _ rfl

/-! ## C6 — archiving: copy before delete, status, catalog exclusion -/

theorem alookup_none_not_key {α : Type} (l : List (String × α)) (k : String)
    (h : alookup l k = none) : ∀ p ∈ l, p.1 ≠ k := by
  induction l with
  | nil => intro p hp; cases hp
  | cons q qs ih =>
      intro p hp
      by_cases hq : q.1 = k
      · simp [alookup, hq] at h
      · simp only [alookup, hq, if_false] at h
        cases hp with
        | head => exact hq
        | tail _ hmem => exact ih h p hmem

theorem not_mem_catalogFiles_of_absent (s : HostState) (fileName : String)
    (h : alookup s.iterations fileName = none) : fileName ∉ catalogFiles s := by
  intro hmem
  unfold catalogFiles at hmem
  obtain ⟨p, hp, hpeq⟩ := List.mem_map.mp hmem
  exact alookup_none_not_key s.iterations fileName h p (List.mem_of_mem_filter hp) hpeq

/-- C6, confirmed.  Archiving a document that exists in the document
directory (1) first copies it to the archive — in the state between the
copy and the delete the content is present in *both* directories, so a
failure mid-operation cannot lose it (copy-then-delete, never
delete-then-copy) — then (2) deletes the source, (3) sets the persisted
status to `archived`, and (4) the document's file no longer feeds a
subsequent catalog listing built from the document directory. -/
theorem c6_archive_copy_then_delete (s : HostState) (fileName : String)
    (now : Int) (fr : FileRecord)
    (h : alookup s.iterations fileName = some fr) :
    (copyToArchive s fileName).toOption.map
        (fun t => (alookup t.iterations fileName, alookup t.archive fileName)) =
      some (some fr, some fr) ∧
    (archiveDesign s fileName now).toOption.map
        (fun t =>
          (alookup t.iterations fileName, alookup t.archive fileName,
           (alookup t.metadata.designs fileName).map DesignMetadata.status,
           decide (fileName ∈ catalogFiles t))) =
      some (none, some fr, some DesignStatus.archived, false) := by
  have hcopy : copyToArchive s fileName =
      Except.ok { s with archive := aset s.archive fileName fr } := by
    unfold copyToArchive
    rw [h]
  constructor
  · rw [hcopy]
    simp [Except.toOption, h, alookup_aset_self]
  · have harch : archiveDesign s fileName now =
        Except.ok
          { iterations := aeraseAll s.iterations fileName
            archive := aset s.archive fileName fr
            metadata :=
              updateStatusPure s.metadata fileName DesignStatus.archived now
            primaryDesignId := s.primaryDesignId } := by
      unfold archiveDesign
      rw [hcopy]
      rfl
    rw [harch]
    have hiter : alookup (aeraseAll s.iterations fileName) fileName = none :=
      alookup_aeraseAll_self s.iterations fileName
    have hstatus :
        alookup (updateStatusPure s.metadata fileName DesignStatus.archived now).designs
            fileName =
          some { (match alookup s.metadata.designs fileName with
                  | some m => m
                  | none => createDefaultMetadata fileName now) with
                 status := DesignStatus.archived, updatedAt := now } := by
      unfold updateStatusPure
      exact alookup_aset_self _ _ _
    have hnotmem : fileName ∉ catalogFiles
        { iterations := aeraseAll s.iterations fileName
          archive := aset s.archive fileName fr
          metadata := updateStatusPure s.metadata fileName DesignStatus.archived now
          primaryDesignId := s.primaryDesignId } :=
      not_mem_catalogFiles_of_absent _ fileName hiter
    simp [Except.toOption, hiter, hstatus, alookup_aset_self, hnotmem]

/-- C6, witness: archiving `a.html` from `hostEx`. -/
theorem c6_archive_copy_then_delete_witness :
    (archiveDesign hostEx "a.html" 9).toOption.map
        (fun t =>
          (alookup t.iterations "a.html", alookup t.archive "a.html",
           (alookup t.metadata.designs "a.html").map DesignMetadata.status,
           decide ("a.html" ∈ catalogFiles t))) =
      some (none, some { content := "<html>x</html>", mtime := 5 },
            some DesignStatus.archived, false) :=
  (c6_archive_copy_then_delete hostEx "a.html" 9
    { content := "<html>x</html>", mtime := 5 } rfl).2

/-! ## C8 — write failure: surfaced error, but the cache keeps the mutation -/

/-- A cached metadata store with one draft record for `a.html`. -/
def storeCachedEx : MetadataStore :=
  { designs := [("a.html", createDefaultMetadata "a.html" 0)]
    lastUpdated := 0
    version := "1.0.0" }

/-- A design manager whose cache holds `storeCachedEx`. -/
def dmCachedEx : DMState :=
  { disk := LoadInput.readError, cache := some storeCachedEx }

/-- C8, counterexample.  With `a.html` cached as `draft`, an
`updateStatus` to `approved` whose disk write fails does surface the
error — but because the store being mutated *is* the cached object, the
in-memory cache now holds `approved`: a subsequent read through the cache
returns the updated record, not the record from before the failed
operation. -/
theorem c8_cache_counterexample :
    (getDesignMetadata dmCachedEx "a.html" 1).1.map DesignMetadata.status =
      some DesignStatus.draft ∧
    (updateStatus dmCachedEx "a.html" DesignStatus.approved 5 false).2 =
      Except.error "Failed to save metadata" ∧
    (getDesignMetadata
        (updateStatus dmCachedEx "a.html" DesignStatus.approved 5 false).1
        "a.html" 6).1.map DesignMetadata.status = some DesignStatus.approved ∧
    (getDesignMetadata
        (updateStatus dmCachedEx "a.html" DesignStatus.approved 5 false).1
        "a.html" 6).1.map DesignMetadata.status ≠ some DesignStatus.draft := by
  refine ⟨rfl, rfl, rfl, by decide⟩

/-- C8, amended.  For a mutating metadata operation whose disk write
fails, the error is surfaced to the caller (the operation rethrows, never
silently swallows) — but when the table was cached, the in-place mutation
performed before the write remains visible through the shared cache
object, so a subsequent read returns the record with the new status and
`updatedAt`, not the records from before the failed operation. -/
theorem c8_write_failure_error_surfaced_cache_mutated (disk : LoadInput)
    (c : MetadataStore) (fileName : String) (status : DesignStatus)
    (now later : Int) :
    (updateStatus { disk := disk, cache := some c } fileName status now false).2 =
      Except.error "Failed to save metadata" ∧
    (getDesignMetadata
        (updateStatus { disk := disk, cache := some c } fileName status now false).1
        fileName later).1 =
      some { (match alookup c.designs fileName with
              | some m => m
              | none => createDefaultMetadata fileName now) with
             status := status, updatedAt := now } := by
  constructor
  · rfl
  · show alookup (aset c.designs fileName _) fileName = _
    exact alookup_aset_self _ _ _

/-! ## C9 — bulk archiving archives exactly the old, non-approved designs -/

theorem archiveDesign_ok_of_lookup (st : HostState) (f : String) (now : Int)
    (fr : FileRecord) (h : alookup st.iterations f = some fr) :
    archiveDesign st f now =
      Except.ok
        { iterations := aeraseAll st.iterations f
          archive := aset st.archive f fr
          metadata := updateStatusPure st.metadata f DesignStatus.archived now
          primaryDesignId := st.primaryDesignId } := by
  have hcopy : copyToArchive st f =
      Except.ok { st with archive := aset st.archive f fr } := by
    unfold copyToArchive
    rw [h]
  unfold archiveDesign
  rw [hcopy]
  rfl

theorem archiveDesign_frame (st st1 : HostState) (g f : String) (now : Int)
    (hfg : f ≠ g) (h : archiveDesign st g now = Except.ok st1) :
    keyView st1 f = keyView st f := by
  cases hl : alookup st.iterations g with
  | none =>
      unfold archiveDesign copyToArchive at h
      rw [hl] at h
      exact Except.noConfusion h
  | some fr =>
      rw [archiveDesign_ok_of_lookup st g now fr hl] at h
      simp only [Except.ok.injEq] at h
      rw [← h]
      unfold keyView updateStatusPure
      simp only []
      rw [alookup_aeraseAll_ne st.iterations g f hfg,
          alookup_aset_ne st.archive g f fr hfg,
          alookup_aset_ne st.metadata.designs g f _ hfg]

theorem bulkArchiveGo_frame (cutoff now : Int) (f : String) :
    ∀ (es : List (String × DesignMetadata)) (st : HostState) (n : Nat),
      f ∉ es.map Prod.fst →
      keyView (bulkArchiveGo cutoff now es st n).1 f = keyView st f := by
  intro es
  induction es with
  | nil => intro st n _; rfl
  | cons e rest ih =>
      intro st n hf
      obtain ⟨g, m⟩ := e
      simp only [List.map_cons, List.mem_cons, not_or] at hf
      obtain ⟨hfg, hrest⟩ := hf
      cases helig : eligibleForBulkArchive m cutoff with
      | false => simp only [bulkArchiveGo, helig, Bool.false_eq_true, if_false]
                 exact ih st n hrest
      | true =>
          simp only [bulkArchiveGo, helig, if_true]
          cases ha : archiveDesign st g now with
          | ok st1 =>
              rw [ih st1 (n + 1) hrest]
              exact archiveDesign_frame st st1 g f now hfg ha
          | error e' => exact ih st n hrest

theorem bulkArchiveGo_append (cutoff now : Int) :
    ∀ (pre post : List (String × DesignMetadata)) (st : HostState) (n : Nat),
      bulkArchiveGo cutoff now (pre ++ post) st n =
        bulkArchiveGo cutoff now post
          (bulkArchiveGo cutoff now pre st n).1
          (bulkArchiveGo cutoff now pre st n).2 := by
  intro pre
  induction pre with
  | nil => intro post st n; rfl
  | cons e rest ih =>
      intro post st n
      obtain ⟨g, m⟩ := e
      cases helig : eligibleForBulkArchive m cutoff with
      | false =>
          simp only [List.cons_append, bulkArchiveGo, helig, Bool.false_eq_true,
            if_false]
          exact ih post st n
      | true =>
          simp only [List.cons_append, bulkArchiveGo, helig, if_true]
          cases ha : archiveDesign st g now with
          | ok st1 => exact ih post st1 (n + 1)
          | error e' => exact ih post st n

/-- C9, confirmed.  For any design record `(f, m)` in the metadata table
(whose keys, being JavaScript object properties, are unique):
(1) an `approved` or `archived` status makes the record ineligible for
bulk archiving regardless of its age; (2) an ineligible record — wrong
status or not strictly older than `now - daysOld` days — is left with its
file and its metadata record untouched by `archiveOldDesigns`; (3) an
eligible record whose file is present is archived: the file moves from
the document directory to the archive and the persisted status becomes
`archived`. -/
theorem c9_bulk_archive_exactly_eligible (s : HostState) (daysOld now : Int)
    (f : String) (m : DesignMetadata)
    (hnd : (s.metadata.designs.map Prod.fst).Nodup)
    (hmem : (f, m) ∈ s.metadata.designs) :
    ((m.status = DesignStatus.approved ∨ m.status = DesignStatus.archived) →
        eligibleForBulkArchive m (now - daysOld * msPerDay) = false) ∧
    (eligibleForBulkArchive m (now - daysOld * msPerDay) = false →
        keyView (archiveOldDesigns s daysOld now).1 f = keyView s f) ∧
    (∀ fr, eligibleForBulkArchive m (now - daysOld * msPerDay) = true →
        alookup s.iterations f = some fr →
        alookup (archiveOldDesigns s daysOld now).1.iterations f = none ∧
        alookup (archiveOldDesigns s daysOld now).1.archive f = some fr ∧
        (alookup (archiveOldDesigns s daysOld now).1.metadata.designs f).map
            DesignMetadata.status = some DesignStatus.archived) := by
  obtain ⟨pre, post, heq⟩ := List.append_of_mem hmem
  have hnd' := hnd
  rw [heq, List.map_append, List.map_cons] at hnd'
  rw [List.nodup_append] at hnd'
  obtain ⟨hnd1, hnd2, hdisj⟩ := hnd'
  have hf_post : f ∉ post.map Prod.fst := (List.nodup_cons.mp hnd2).1
  have hf_pre : f ∉ pre.map Prod.fst := by
    intro hc
    exact hdisj hc (List.mem_cons_self f (post.map Prod.fst))
  have hunfold : archiveOldDesigns s daysOld now =
      bulkArchiveGo (now - daysOld * msPerDay) now
        (pre ++ (f, m) :: post) s 0 := by
    unfold archiveOldDesigns
    rw [heq]
  refine ⟨?_, ?_, ?_⟩
  · rintro (h | h) <;> simp [eligibleForBulkArchive, h]
  · intro helig
    rw [hunfold, bulkArchiveGo_append]
    have hmid :
        bulkArchiveGo (now - daysOld * msPerDay) now ((f, m) :: post)
            (bulkArchiveGo (now - daysOld * msPerDay) now pre s 0).1
            (bulkArchiveGo (now - daysOld * msPerDay) now pre s 0).2 =
          bulkArchiveGo (now - daysOld * msPerDay) now post
            (bulkArchiveGo (now - daysOld * msPerDay) now pre s 0).1
            (bulkArchiveGo (now - daysOld * msPerDay) now pre s 0).2 := by
      simp only [bulkArchiveGo, helig, Bool.false_eq_true, if_false]
    rw [hmid, bulkArchiveGo_frame _ _ _ post _ _ hf_post,
        bulkArchiveGo_frame _ _ _ pre _ _ hf_pre]
  · intro fr helig hfile
    have hpre_view := bulkArchiveGo_frame (now - daysOld * msPerDay) now f pre s 0 hf_pre
    have hfile1 :
        alookup (bulkArchiveGo (now - daysOld * msPerDay) now pre s 0).1.iterations f =
          some fr := by
      have := congrArg Prod.fst hpre_view
      unfold keyView at this
      simp only [] at this
      rw [this, hfile]
    have harch := archiveDesign_ok_of_lookup
      (bulkArchiveGo (now - daysOld * msPerDay) now pre s 0).1 f now fr hfile1
    have hstep :
        bulkArchiveGo (now - daysOld * msPerDay) now ((f, m) :: post)
            (bulkArchiveGo (now - daysOld * msPerDay) now pre s 0).1
            (bulkArchiveGo (now - daysOld * msPerDay) now pre s 0).2 =
          bulkArchiveGo (now - daysOld * msPerDay) now post
            { iterations :=
                aeraseAll (bulkArchiveGo (now - daysOld * msPerDay) now pre s 0).1.iterations f
              archive :=
                aset (bulkArchiveGo (now - daysOld * msPerDay) now pre s 0).1.archive f fr
              metadata :=
                updateStatusPure
                  (bulkArchiveGo (now - daysOld * msPerDay) now pre s 0).1.metadata f
                  DesignStatus.archived now
              primaryDesignId :=
                (bulkArchiveGo (now - daysOld * msPerDay) now pre s 0).1.primaryDesignId }
            ((bulkArchiveGo (now - daysOld * msPerDay) now pre s 0).2 + 1) := by
      simp only [bulkArchiveGo, helig, if_true, harch]
    have hkv :
        keyView (archiveOldDesigns s daysOld now).1 f =
          keyView
            { iterations :=
                aeraseAll (bulkArchiveGo (now - daysOld * msPerDay) now pre s 0).1.iterations f
              archive :=
                aset (bulkArchiveGo (now - daysOld * msPerDay) now pre s 0).1.archive f fr
              metadata :=
                updateStatusPure
                  (bulkArchiveGo (now - daysOld * msPerDay) now pre s 0).1.metadata f
                  DesignStatus.archived now
              primaryDesignId :=
                (bulkArchiveGo (now - daysOld * msPerDay) now pre s 0).1.primaryDesignId } f := by
      rw [hunfold, bulkArchiveGo_append, hstep,
          bulkArchiveGo_frame _ _ _ post _ _ hf_post]
    have h1 := congrArg (fun t => t.1) hkv
    have h2 := congrArg (fun t => t.2.1) hkv
    have h3 := congrArg (fun t => t.2.2) hkv
    unfold keyView at h1 h2 h3
    simp only [] at h1 h2 h3
    refine ⟨?_, ?_, ?_⟩
    · rw [h1]
      exact alookup_aeraseAll_self _ f
    · rw [h2]
      exact alookup_aset_self _ f fr
    · rw [h3]
      unfold updateStatusPure
      rw [alookup_aset_self]
      rfl

/-- A host state for the bulk-archive witness: `old.html` is a draft
created at time 0, `new.html` a draft created at time 100, and
`done.html` an approved design created at time 0. -/
def hostBulkEx : HostState :=
  { iterations :=
      [("old.html", { content := "o", mtime := 0 }),
       ("new.html", { content := "n", mtime := 100 }),
       ("done.html", { content := "d", mtime := 0 })]
    archive := []
    metadata :=
      { designs :=
          [("old.html", createDefaultMetadata "old.html" 0),
           ("new.html", createDefaultMetadata "new.html" 100),
           ("done.html",
            { createDefaultMetadata "done.html" 0 with status := DesignStatus.approved })]
        lastUpdated := 0
        version := "1.0.0" }
    primaryDesignId := none }

/-- C9, witness: with `now = 50` and `daysOld = 0`, the draft created at
time 0 is archived (file moved, status `archived`). -/
theorem c9_bulk_archive_exactly_eligible_witness :
    alookup (archiveOldDesigns hostBulkEx 0 50).1.iterations "old.html" = none ∧
    alookup (archiveOldDesigns hostBulkEx 0 50).1.archive "old.html" =
      some { content := "o", mtime := 0 } ∧
    (alookup (archiveOldDesigns hostBulkEx 0 50).1.metadata.designs "old.html").map
        DesignMetadata.status = some DesignStatus.archived :=
  (c9_bulk_archive_exactly_eligible hostBulkEx 0 50 "old.html"
      (createDefaultMetadata "old.html" 0) (by decide) (by decide)).2.2
    { content := "o", mtime := 0 } (by decide) (by decide)
